import Mathlib

/-!
Shallow embedding of the coscup2025 media/auth gRPC services.

The media service (`src/media/func.go`) exposes a client-streaming
`UploadVideo` and a server-streaming `DownloadVideo` over an in-memory
video store; the auth service (`src/auth/func.go`, `src/main.go`) exposes
`SignUp` / `SignIn` over an in-memory user store, plus the JWT-checking
unary and stream interceptors.

Go maps are embedded as association lists with Go-map insert/lookup
semantics; gRPC metadata is an association list from header key to the
list of values; the client stream consumed by `UploadVideo` is the list
of successfully received chunks followed by how the stream ends (clean
EOF or a transport receive error).  Cryptographic collaborators (bcrypt,
JWT signing/verification) are opaque function parameters, as the spec
treats them as external collaborators.
-/

namespace Coscup

/-- gRPC status codes used by the services. -/
inductive Code where
  | invalidArgument
  | unauthenticated
  | notFound
  | failedPrecondition
  | internalErr
  | alreadyExists
deriving DecidableEq, Repr

/-- A gRPC error: status code plus message (as built by `status.Error`). -/
structure GrpcError where
  code : Code
  msg : String
deriving DecidableEq, Repr

/-- Byte payloads.  Only lengths and concatenation matter to the control
flow, so bytes are plain naturals. -/
abbrev Bytes := List Nat

/-- Go-map lookup (`v, ok := m[k]`) on an association list. -/
def mapLookup {α : Type} (s : List (String × α)) (k : String) : Option α :=
  (s.find? (fun e => e.1 = k)).map (fun e => e.2)

/-- Go-map insert (`m[k] = v`): replace the entry in place if the key is
present, otherwise append a new entry. -/
def mapInsert {α : Type} : List (String × α) → String → α → List (String × α)
  | [], k, v => [(k, v)]
  | e :: t, k, v => if e.1 = k then (k, v) :: t else e :: mapInsert t k v

/-- gRPC metadata: header key to list of values. -/
abbrev MD := List (String × List String)

/-- `md.Get(key)` from the Go metadata package: the values for a key,
empty when absent. -/
def MD.getVals (md : MD) (k : String) : List String :=
  (mapLookup md k).getD []

/-! ### Media service data model (`src/media`, proto `media`) -/

/-- One message of the `UploadVideo` client stream. -/
structure UploadVideoRequest where
  videoId : String
  data : Bytes
  sequence : Int
deriving DecidableEq, Repr

/-- `media.VideoMetadata`. -/
structure VideoMetadata where
  uploaderId : String
  uploaderName : String
  uploadTimestamp : Int
  fileName : String
  fileSize : Int
deriving DecidableEq, Repr

/-- `VideoInfo`: the stored payload plus its metadata. -/
structure VideoInfo where
  data : Bytes
  metadata : VideoMetadata
deriving DecidableEq, Repr

/-- `media.UploadVideoResponse`. -/
structure UploadVideoResponse where
  videoId : String
  totalBytes : Int
  metadata : VideoMetadata
deriving DecidableEq, Repr

/-- One message of the `DownloadVideo` server stream. -/
structure DownloadVideoResponse where
  videoId : String
  data : Bytes
  sequence : Int
  metadata : Option VideoMetadata
deriving DecidableEq, Repr

/-- The `mediaServer.videos` map. -/
abbrev VideoStore := List (String × VideoInfo)

/-- How the client stream ends after its successful chunks: clean EOF,
or a transport-level receive error. -/
inductive StreamEnd where
  | eof
  | recvErr
deriving DecidableEq, Repr

/-- Uploader id recorded at commit: head of the incoming `user-id`
header values, else the `"unknown"` sentinel. -/
def ownerId (md : MD) : String :=
  match md.getVals "user-id" with
  | [] => "unknown"
  | x :: _ => x

/-- Uploader display name recorded at commit: head of the incoming
`user-name` header values, else the `"Unknown User"` sentinel. -/
def ownerName (md : MD) : String :=
  match md.getVals "user-name" with
  | [] => "Unknown User"
  | x :: _ => x

/-- The `media.VideoMetadata` built at the EOF commit point of
`UploadVideo`. -/
def commitMetadata (md : MD) (now : Int) (videoID : String)
    (totalBytes : Int) : VideoMetadata :=
  { uploaderId := ownerId md
    uploaderName := ownerName md
    uploadTimestamp := now
    fileName := videoID
    fileSize := totalBytes }

/-- The `for { stream.Recv() ... }` loop of `UploadVideo`
(src/media/func.go:31-133).  Arguments mirror the loop-carried
variables `videoID`, `totalBytes`, `videoData`, `chunkCount`; the store
is threaded explicitly, and every error return leaves it as received. -/
def uploadLoop (md : MD) (now : Int) (store : VideoStore)
    (videoID : String) (totalBytes : Int) (videoData : Bytes)
    (chunkCount : Int) :
    List UploadVideoRequest → StreamEnd →
      Except GrpcError UploadVideoResponse × VideoStore
  | [], .recvErr =>
      (.error ⟨.internalErr, "failed to receive chunk"⟩, store)
  | [], .eof =>
      if videoID = "" then
        (.error ⟨.invalidArgument, "no video ID provided"⟩, store)
      else
        let meta := commitMetadata md now videoID totalBytes
        (.ok { videoId := videoID, totalBytes := totalBytes, metadata := meta },
         mapInsert store videoID { data := videoData, metadata := meta })
  | req :: rest, fin =>
      if videoID = "" ∧ req.videoId = "" then
        (.error ⟨.invalidArgument, "video ID is required"⟩, store)
      else
        let videoID' := if videoID = "" then req.videoId else videoID
        if req.videoId ≠ videoID' then
          (.error ⟨.invalidArgument, "inconsistent video ID"⟩, store)
        else
          uploadLoop md now store videoID' (totalBytes + req.data.length)
            (videoData ++ req.data) (chunkCount + 1) rest fin

/-- `UploadVideo`: run the receive loop from the initial state.  `md` is
the incoming call metadata, `now` the commit-time clock reading. -/
def uploadVideo (md : MD) (now : Int) (store : VideoStore)
    (chunks : List UploadVideoRequest) (fin : StreamEnd) :
    Except GrpcError UploadVideoResponse × VideoStore :=
  uploadLoop md now store "" 0 [] 0 chunks fin

/-- The download chunk size (1 MiB). -/
def chunkSize : Nat := 1024 * 1024

/-- The send loop of `DownloadVideo` (src/media/func.go:190-228): slice
`videoData[i:min(i+chunkSize,len)]`, sequence `i/chunkSize + 1`,
metadata attached only when the sequence is 1. -/
def sendChunks (videoId : String) (meta : VideoMetadata)
    (videoData : Bytes) (i : Nat) : List DownloadVideoResponse :=
  if i < videoData.length then
    let e := min (i + chunkSize) videoData.length
    let chunkSequence : Int := ((i / chunkSize : Nat) : Int) + 1
    { videoId := videoId
      data := (videoData.drop i).take (e - i)
      sequence := chunkSequence
      metadata := if chunkSequence = 1 then some meta else none } ::
      sendChunks videoId meta videoData (i + chunkSize)
  else []
termination_by videoData.length - i
decreasing_by
  have hpos : 0 < chunkSize := by decide
  omega

/-- `DownloadVideo` (src/media/func.go:136-244): look the id up, guard
against absence and against an empty stored payload, then emit the
chunk sequence.  The transport is modelled as reliable, so the
`Internal` send-failure branch is not reachable here. -/
def downloadVideo (store : VideoStore) (videoId : String) :
    Except GrpcError (List DownloadVideoResponse) :=
  match mapLookup store videoId with
  | none => .error ⟨.notFound, "video not found"⟩
  | some info =>
      if info.data.length = 0 then
        .error ⟨.failedPrecondition, "no download source available for this video"⟩
      else
        .ok (sendChunks videoId info.metadata info.data 0)

/-! ### Auth service (`src/auth/func.go`, `src/main.go`) -/

/-- A stored user record. -/
structure User where
  id : String
  username : String
  password : String
deriving DecidableEq, Repr

/-- The `authServer.users` map, keyed by username. -/
abbrev UserStore := List (String × User)

/-- `SignUp` (src/auth/func.go:18-39).  `hash` is the opaque bcrypt
collaborator (its failure branch, `Internal`, is out of scope per the
spec).  Note the user id is derived from the map size before insertion,
and an existing username is silently overwritten. -/
def signUp (hash : String → String) (users : UserStore)
    (username password : String) : Except GrpcError String × UserStore :=
  if username = "" ∨ password = "" then
    (.error ⟨.invalidArgument, "username and password are required"⟩, users)
  else
    let userID := "user_" ++ Nat.repr (users.length + 1)
    (.ok userID,
     mapInsert users username
       { id := userID, username := username, password := hash password })

/-- `SignIn` (src/auth/func.go:41-66).  `check hashed pw` is the opaque
`bcrypt.CompareHashAndPassword` collaborator (true = match), `sign` the
opaque JWT issuance collaborator producing the token string from the
user's id and username. -/
def signIn (check : String → String → Bool)
    (sign : String → String → String) (users : UserStore)
    (username password : String) : Except GrpcError String :=
  match mapLookup users username with
  | none => .error ⟨.unauthenticated, "invalid credentials"⟩
  | some user =>
      if ¬ check user.password password then
        .error ⟨.unauthenticated, "invalid credentials"⟩
      else
        .ok (sign user.id user.username)

/-! ### Interceptors -/

/-- `strings.HasPrefix(s, p)`, byte-for-byte on the character data. -/
def hasPrefix (p s : String) : Bool :=
  p.data.isPrefixOf s.data

/-- `strings.TrimPrefix(s, "Bearer ")`. -/
def trimBearer (s : String) : String :=
  if hasPrefix "Bearer " s then s.drop "Bearer ".length else s

/-- A call's gRPC context as the handlers see it: the incoming metadata
(`none` when `metadata.FromIncomingContext` reports no metadata) and the
outgoing metadata. -/
structure Ctx where
  incoming : Option MD
  outgoing : MD
deriving DecidableEq, Repr

/-- `UnaryInterceptor` (src/main.go:144-171): SignUp and SignIn bypass
authentication; otherwise the bearer token from the `authorization`
header must validate (`validate` is the opaque JWT parse/verify
collaborator), and only then does the handler run. -/
def unaryInterceptor {α : Type} (validate : String → Bool)
    (fullMethod : String) (md : Option MD)
    (handler : Unit → Except GrpcError α) : Except GrpcError α :=
  if fullMethod = "/auth.AuthService/SignUp" ∨
      fullMethod = "/auth.AuthService/SignIn" then
    handler ()
  else
    match md with
    | none => .error ⟨.unauthenticated, "no metadata provided"⟩
    | some m =>
        match mapLookup m "authorization" with
        | none => .error ⟨.unauthenticated, "authorization token missing"⟩
        | some [] => .error ⟨.unauthenticated, "authorization token missing"⟩
        | some (a :: _) =>
            if ¬ validate (trimBearer a) then
              .error ⟨.unauthenticated, "invalid token"⟩
            else handler ()

/-- `StreamInterceptor` (the media-side interceptor): auth-service
methods bypass authentication; otherwise the bearer token must
validate, and the verified username from its claims
(`claimsUsername`, the opaque claims accessor) is appended to the
OUTGOING metadata under `x-user-id` before the handler runs on the
resulting context. -/
def streamInterceptor {α : Type} (validate : String → Bool)
    (claimsUsername : String → Option String) (fullMethod : String)
    (ctx : Ctx) (handler : Ctx → α) : Except GrpcError α :=
  if hasPrefix "/auth.AuthService/" fullMethod then .ok (handler ctx)
  else
    match ctx.incoming with
    | none => .error ⟨.unauthenticated, "no metadata provided"⟩
    | some m =>
        match mapLookup m "authorization" with
        | none => .error ⟨.unauthenticated, "authorization token missing"⟩
        | some [] => .error ⟨.unauthenticated, "authorization token missing"⟩
        | some (a :: _) =>
            if ¬ validate (trimBearer a) then
              .error ⟨.unauthenticated, "invalid token"⟩
            else
              let ctx' :=
                match claimsUsername (trimBearer a) with
                | some uname =>
                    { ctx with
                        outgoing := ctx.outgoing ++ [("x-user-id", [uname])] }
                | none => ctx
              .ok (handler ctx')

/-- The authentication failure condition shared by both interceptors:
no metadata, no (or empty) `authorization` header, or a token that does
not validate. -/
def authFailed (validate : String → Bool) (md : Option MD) : Bool :=
  match md with
  | none => true
  | some m =>
      match mapLookup m "authorization" with
      | none => true
      | some [] => true
      | some (a :: _) => ¬ validate (trimBearer a)

/-- Whether a call outcome is an `Unauthenticated` error. -/
def isUnauth {α : Type} : Except GrpcError α → Bool
  | .error e => e.code = .unauthenticated
  | .ok _ => false

/-- An authenticated `UploadVideo` call end to end: the stream
interceptor runs first, and on success `UploadVideo` reads the
incoming metadata of the context the interceptor handed it
(`metadata.FromIncomingContext`; a nil metadata map yields no header
values). -/
def uploadVideoCall (validate : String → Bool)
    (claimsUsername : String → Option String) (ctx : Ctx) (now : Int)
    (store : VideoStore) (chunks : List UploadVideoRequest)
    (fin : StreamEnd) :
    Except GrpcError (Except GrpcError UploadVideoResponse × VideoStore) :=
  streamInterceptor validate claimsUsername "/media.MediaService/UploadVideo"
    ctx (fun c => uploadVideo (c.incoming.getD []) now store chunks fin)

/-- Decimal value of a digit character. -/
def digitVal (c : Char) : Nat := c.toNat - '0'.toNat

/-- Read a decimal digit list back into a natural number. -/
def readDigits (l : List Char) : Nat :=
  l.foldl (fun a c => a * 10 + digitVal c) 0

/-- A finite sequence of SignUp calls against the credential store,
threading the store through each call. -/
def runSignUps (hash : String → String) (users : UserStore) :
    List (String × String) → UserStore
  | [] => users
  | (u, p) :: rest => runSignUps hash (signUp hash users u p).2 rest

/-- The id-assignment shape `SignUp` aims for: the k-th stored record
(0-based) holds id `user_(k+1)`. -/
def idsAssigned (users : UserStore) : Prop :=
  users.map (fun e => e.2.id) =
    (List.range users.length).map (fun k => "user_" ++ Nat.repr (k + 1))

/-! ### Map lemmas -/

theorem mapLookup_mapInsert_self {α : Type} (s : List (String × α))
    (k : String) (v : α) : mapLookup (mapInsert s k v) k = some v := by
  induction s with
  | nil => simp [mapInsert, mapLookup]
  | cons e t ih =>
      by_cases h : e.1 = k
      · simp [mapInsert, h, mapLookup]
      · simpa [mapInsert, h, mapLookup, List.find?] using ih

theorem mapInsert_of_fresh {α : Type} (s : List (String × α)) (k : String)
    (v : α) (h : ∀ e ∈ s, e.1 ≠ k) : mapInsert s k v = s ++ [(k, v)] := by
  induction s with
  | nil => rfl
  | cons e t ih =>
      have he : e.1 ≠ k := h e (by simp)
      simp only [mapInsert, if_neg he, List.cons_append, List.cons.injEq,
        true_and]
      exact ih fun x hx => h x (by simp [hx])

/-! ### Upload state machine lemmas -/

theorem uploadLoop_error_store (md : MD) (now : Int) (store : VideoStore) :
    ∀ (chunks : List UploadVideoRequest) (fin : StreamEnd) (vid : String)
      (tb : Int) (d : Bytes) (cc : Int) (e : GrpcError),
      (uploadLoop md now store vid tb d cc chunks fin).1 = .error e →
      (uploadLoop md now store vid tb d cc chunks fin).2 = store := by
  intro chunks
  induction chunks with
  | nil =>
      intro fin vid tb d cc e h
      cases fin with
      | recvErr => rfl
      | eof =>
          by_cases hv : vid = ""
          · simp [uploadLoop, hv]
          · simp [uploadLoop, hv] at h
  | cons req rest ih =>
      intro fin vid tb d cc e h
      simp only [uploadLoop] at h ⊢
      by_cases h1 : vid = "" ∧ req.videoId = ""
      · simp [h1]
      · simp only [if_neg h1] at h ⊢
        by_cases h2 : req.videoId ≠ (if vid = "" then req.videoId else vid)
        · simp [h2]
        · simp only [if_neg h2] at h ⊢
          exact ih _ _ _ _ _ _ h

theorem uploadLoop_mismatch (md : MD) (now : Int) (store : VideoStore)
    (vid : String) (hv : vid ≠ "") :
    ∀ (rest : List UploadVideoRequest) (tb : Int) (d : Bytes) (cc : Int)
      (fin : StreamEnd), (∃ c ∈ rest, c.videoId ≠ vid) →
      (uploadLoop md now store vid tb d cc rest fin).1 =
        .error ⟨.invalidArgument, "inconsistent video ID"⟩ := by
  intro rest
  induction rest with
  | nil => intro tb d cc fin h; simp at h
  | cons req rest ih =>
      intro tb d cc fin h
      simp only [uploadLoop]
      have h1 : ¬ (vid = "" ∧ req.videoId = "") := fun hc => hv hc.1
      simp only [if_neg h1, if_neg hv]
      by_cases h2 : req.videoId = vid
      · simp only [h2, ne_eq, not_true_eq_false, if_false]
        rcases h with ⟨c, hc, hne⟩
        rcases List.mem_cons.mp hc with rfl | hmem
        · exact absurd h2 hne
        · exact ih _ _ _ fin ⟨c, hmem, hne⟩
      · simp [h2]

/-- C2: an upload stream whose first chunk establishes an identifier and
that later carries a chunk with a different identifier fails with
`InvalidArgument`; and on this and every other error return of the
upload state machine the video store is left unchanged — a partial
upload is never committed. -/
theorem c2_mismatch_and_store_untouched (md : MD) (now : Int)
    (store : VideoStore) (c0 : UploadVideoRequest)
    (rest : List UploadVideoRequest) (fin : StreamEnd)
    (h0 : c0.videoId ≠ "") (hm : ∃ c ∈ rest, c.videoId ≠ c0.videoId) :
    (uploadVideo md now store (c0 :: rest) fin).1 =
        .error ⟨.invalidArgument, "inconsistent video ID"⟩ ∧
    ∀ (chunks : List UploadVideoRequest) (fin' : StreamEnd) (e : GrpcError),
      (uploadVideo md now store chunks fin').1 = .error e →
      (uploadVideo md now store chunks fin').2 = store := by
  constructor
  · show (uploadLoop md now store "" 0 [] 0 (c0 :: rest) fin).1 = _
    simp only [uploadLoop, h0, and_false, if_false, ite_self]
    simp only [ite_true, ne_eq, eq_self_iff_true, not_true_eq_false, if_false]
    exact uploadLoop_mismatch md now store c0.videoId h0 rest _ _ _ fin hm
  · intro chunks fin' e h
    exact uploadLoop_error_store md now store chunks fin' _ _ _ _ e h

/-- C2 witness: concrete mismatching stream. -/
theorem c2_mismatch_and_store_untouched_witness :
    (uploadVideo [] 0 [] [⟨"v1", [1], 1⟩, ⟨"v2", [2], 2⟩] .eof).1 =
      .error ⟨.invalidArgument, "inconsistent video ID"⟩ :=
  (c2_mismatch_and_store_untouched [] 0 [] ⟨"v1", [1], 1⟩ [⟨"v2", [2], 2⟩]
    .eof (by decide) ⟨⟨"v2", [2], 2⟩, by decide⟩).1

/-- C3: downloading an identifier absent from the store fails with
`NotFound`, while an identifier present with a zero-length stored
payload fails with `FailedPrecondition` — the two cases are never
conflated. -/
theorem c3_notFound_vs_empty (store : VideoStore) (id : String) :
    (mapLookup store id = none →
      downloadVideo store id = .error ⟨.notFound, "video not found"⟩) ∧
    ∀ info, mapLookup store id = some info → info.data = [] →
      downloadVideo store id =
        .error ⟨.failedPrecondition,
          "no download source available for this video"⟩ := by
  constructor
  · intro h; simp [downloadVideo, h]
  · intro info h hd; simp [downloadVideo, h, hd]

/-- C3 witness: a store holding one empty object, probed at a missing
and at the empty identifier. -/
theorem c3_notFound_vs_empty_witness :
    downloadVideo [("v1", ⟨[], ⟨"u", "U", 0, "v1", 0⟩⟩)] "ghost" =
        .error ⟨.notFound, "video not found"⟩ ∧
    downloadVideo [("v1", ⟨[], ⟨"u", "U", 0, "v1", 0⟩⟩)] "v1" =
        .error ⟨.failedPrecondition,
          "no download source available for this video"⟩ :=
  ⟨(c3_notFound_vs_empty [("v1", ⟨[], ⟨"u", "U", 0, "v1", 0⟩⟩)] "ghost").1
      (by decide),
   (c3_notFound_vs_empty [("v1", ⟨[], ⟨"u", "U", 0, "v1", 0⟩⟩)] "v1").2
      ⟨[], ⟨"u", "U", 0, "v1", 0⟩⟩ (by decide) rfl⟩

theorem uploadLoop_all_match (md : MD) (now : Int) (store : VideoStore)
    (vid : String) (hv : vid ≠ "") :
    ∀ (chunks : List UploadVideoRequest) (tb : Int) (d : Bytes) (cc : Int),
      (∀ c ∈ chunks, c.videoId = vid) →
      uploadLoop md now store vid tb d cc chunks .eof =
        (.ok { videoId := vid
               totalBytes := tb + (chunks.map fun c => (c.data.length : Int)).sum
               metadata := commitMetadata md now vid
                 (tb + (chunks.map fun c => (c.data.length : Int)).sum) },
         mapInsert store vid
           { data := d ++ (chunks.map fun c => c.data).flatten
             metadata := commitMetadata md now vid
               (tb + (chunks.map fun c => (c.data.length : Int)).sum) }) := by
  intro chunks
  induction chunks with
  | nil => intro tb d cc _; simp [uploadLoop, hv]
  | cons req rest ih =>
      intro tb d cc hall
      have hreq : req.videoId = vid := hall req (by simp)
      have h1 : ¬ (vid = "" ∧ req.videoId = "") := fun hc => hv hc.1
      simp only [uploadLoop, if_neg h1, if_neg hv, ite_false]
      have h2 : ¬ req.videoId ≠ vid := by simp [hreq]
      simp only [if_neg h2]
      rw [ih _ _ _ fun c hc => hall c (by simp [hc])]
      simp only [List.map_cons, List.sum_cons, List.flatten_cons,
        List.append_assoc, hreq]
      rw [add_assoc]

theorem uploadLoop_ok_inv (md : MD) (now : Int) (store : VideoStore) :
    ∀ (chunks : List UploadVideoRequest) (fin : StreamEnd) (vid : String)
      (tb : Int) (d : Bytes) (cc : Int) (resp : UploadVideoResponse),
      (uploadLoop md now store vid tb d cc chunks fin).1 = .ok resp →
      resp.videoId ≠ "" ∧
      resp.totalBytes = tb + (chunks.map fun c => (c.data.length : Int)).sum ∧
      resp.metadata = commitMetadata md now resp.videoId resp.totalBytes ∧
      (uploadLoop md now store vid tb d cc chunks fin).2 =
        mapInsert store resp.videoId
          { data := d ++ (chunks.map fun c => c.data).flatten
            metadata := resp.metadata } := by
  intro chunks
  induction chunks with
  | nil =>
      intro fin vid tb d cc resp h
      cases fin with
      | recvErr => simp [uploadLoop] at h
      | eof =>
          by_cases hv : vid = ""
          · simp [uploadLoop, hv] at h
          · simp only [uploadLoop, if_neg hv, Except.ok.injEq] at h
            subst h
            refine ⟨hv, by simp, rfl, ?_⟩
            simp [uploadLoop, hv]
  | cons req rest ih =>
      intro fin vid tb d cc resp h
      simp only [uploadLoop] at h ⊢
      by_cases h1 : vid = "" ∧ req.videoId = ""
      · simp [h1] at h
      · simp only [if_neg h1] at h ⊢
        by_cases h2 : req.videoId ≠ (if vid = "" then req.videoId else vid)
        · simp [h2] at h
        · simp only [if_neg h2] at h ⊢
          obtain ⟨hvid, htb, hmeta, hstore⟩ := ih _ _ _ _ _ _ h
          refine ⟨hvid, ?_, hmeta, ?_⟩
          · rw [htb]; simp; ring
          · rw [hstore]; simp

/-- C1 counterexample: uploading the empty byte string commits, but the
download of that identifier then fails with `FailedPrecondition`, so
the round trip does not return the uploaded bytes. -/
theorem c1_roundtrip_counterexample :
    (uploadVideo [] 0 [] [⟨"v1", [], 1⟩] .eof).1 =
      .ok { videoId := "v1", totalBytes := 0
            metadata := ⟨"unknown", "Unknown User", 0, "v1", 0⟩ } ∧
    downloadVideo (uploadVideo [] 0 [] [⟨"v1", [], 1⟩] .eof).2 "v1" =
      .error ⟨.failedPrecondition,
        "no download source available for this video"⟩ := by
  constructor <;> rfl

/-! ### Download chunk lemmas -/

theorem chunkSize_pos : 0 < chunkSize := by unfold chunkSize; omega

theorem sendChunks_eq_nil (v : String) (m : VideoMetadata) (d : Bytes)
    (i : Nat) (h : ¬ i < d.length) : sendChunks v m d i = [] := by
  rw [sendChunks]
  simp [h]

theorem sendChunks_eq_cons (v : String) (m : VideoMetadata) (d : Bytes)
    (i : Nat) (h : i < d.length) :
    sendChunks v m d i =
      { videoId := v
        data := (d.drop i).take chunkSize
        sequence := ((i / chunkSize : Nat) : Int) + 1
        metadata := if ((i / chunkSize : Nat) : Int) + 1 = 1 then some m
          else none } :: sendChunks v m d (i + chunkSize) := by
  rw [sendChunks]
  simp only [if_pos h, List.cons.injEq, and_true,
    DownloadVideoResponse.mk.injEq, true_and]
  apply List.take_eq_take.mpr
  simp only [List.length_drop]
  omega

theorem sendChunks_flatten (v : String) (m : VideoMetadata) (d : Bytes) :
    ∀ i, ((sendChunks v m d i).map fun c => c.data).flatten = d.drop i := by
  have main : ∀ fuel i, d.length - i ≤ fuel →
      ((sendChunks v m d i).map fun c => c.data).flatten = d.drop i := by
    intro fuel
    induction fuel with
    | zero =>
        intro i hi
        rw [sendChunks_eq_nil v m d i (by omega)]
        rw [List.map_nil, List.flatten_nil]
        exact (List.drop_eq_nil_of_le (by omega)).symm
    | succ f ih =>
        intro i hi
        by_cases h : i < d.length
        · rw [sendChunks_eq_cons v m d i h]
          have hrec := ih (i + chunkSize) (by have := chunkSize_pos; omega)
          rw [List.map_cons, List.flatten_cons, hrec]
          have hdd : d.drop (i + chunkSize) = (d.drop i).drop chunkSize := by
            rw [List.drop_drop]
          rw [hdd, List.take_append_drop]
        · rw [sendChunks_eq_nil v m d i h]
          rw [List.map_nil, List.flatten_nil]
          exact (List.drop_eq_nil_of_le (by omega)).symm
  intro i
  exact main (d.length - i) i le_rfl

theorem sendChunks_get (v : String) (m : VideoMetadata) (d : Bytes) :
    ∀ (k j : Nat) (hk : k < (sendChunks v m d (j * chunkSize)).length),
      (sendChunks v m d (j * chunkSize)).get ⟨k, hk⟩ =
        { videoId := v
          data := (d.drop ((j + k) * chunkSize)).take chunkSize
          sequence := ((j + k : Nat) : Int) + 1
          metadata := if j + k = 0 then some m else none } := by
  intro k
  induction k with
  | zero =>
      intro j hk
      have hlt : j * chunkSize < d.length := by
        by_contra hge
        rw [sendChunks_eq_nil v m d _ hge] at hk
        exact absurd hk (by simp)
      have hdiv : j * chunkSize / chunkSize = j :=
        Nat.mul_div_cancel j chunkSize_pos
      have hc := sendChunks_eq_cons v m d (j * chunkSize) hlt
      rw [hdiv] at hc
      have hstep : (sendChunks v m d (j * chunkSize)).get ⟨0, hk⟩ =
          { videoId := v
            data := (d.drop (j * chunkSize)).take chunkSize
            sequence := ((j : Int)) + 1
            metadata := if ((j : Int)) + 1 = 1 then some m else none } := by
        rw [List.get_of_eq hc]
        rfl
      rw [hstep, Nat.add_zero]
      have hiff : (((j : Int) + 1 = 1)) = (j = 0) := by
        apply propext
        omega
      simp only [hiff]
  | succ k ih =>
      intro j hk
      have hlt : j * chunkSize < d.length := by
        by_contra hge
        rw [sendChunks_eq_nil v m d _ hge] at hk
        exact absurd hk (by simp)
      have hmul : j * chunkSize + chunkSize = (j + 1) * chunkSize := by ring
      have hc := sendChunks_eq_cons v m d (j * chunkSize) hlt
      rw [hmul] at hc
      have hk' : k < (sendChunks v m d ((j + 1) * chunkSize)).length := by
        have hlen := congrArg List.length hc
        rw [List.length_cons] at hlen
        omega
      have hstep : (sendChunks v m d (j * chunkSize)).get ⟨k + 1, hk⟩ =
          (sendChunks v m d ((j + 1) * chunkSize)).get ⟨k, hk'⟩ := by
        rw [List.get_of_eq hc]
        rfl
      rw [hstep, ih (j + 1) hk']
      have harith : j + 1 + k = j + (k + 1) := by omega
      rw [harith]

theorem uploadVideo_first_step (md : MD) (now : Int) (store : VideoStore)
    (c0 : UploadVideoRequest) (rest : List UploadVideoRequest)
    (h : c0.videoId ≠ "") (fin : StreamEnd) :
    uploadVideo md now store (c0 :: rest) fin =
      uploadLoop md now store c0.videoId (0 + (c0.data.length : Int))
        ([] ++ c0.data) (0 + 1) rest fin := by
  show uploadLoop md now store "" 0 [] 0 (c0 :: rest) fin = _
  simp only [uploadLoop, h, and_false, if_false, ite_self]
  simp only [ite_true, ne_eq, eq_self_iff_true, not_true_eq_false, if_false]

theorem downloadVideo_found (store : VideoStore) (id : String)
    (info : VideoInfo) (h : mapLookup store id = some info)
    (hne : ¬ info.data.length = 0) :
    downloadVideo store id = .ok (sendChunks id info.metadata info.data 0) := by
  unfold downloadVideo
  rw [h]
  exact if_neg hne

/-- C1 (amended): uploading a nonempty byte string B under a nonempty
identifier I, in chunks carrying identifier I whose payloads
concatenate to B, commits; downloading I afterwards yields a chunk
sequence whose concatenated payloads are exactly B, independent of the
chunk boundaries on either side. -/
theorem c1_roundtrip_amended (md : MD) (now : Int) (store : VideoStore)
    (B : Bytes) (I : String) (chunks : List UploadVideoRequest)
    (hI : I ≠ "") (hB : B ≠ [])
    (hids : ∀ c ∈ chunks, c.videoId = I)
    (hdata : (chunks.map fun c => c.data).flatten = B) :
    ∃ resp store' out,
      uploadVideo md now store chunks .eof = (.ok resp, store') ∧
      downloadVideo store' I = .ok out ∧
      (out.map fun c => c.data).flatten = B := by
  cases chunks with
  | nil => exact absurd hdata.symm hB
  | cons c0 rest =>
      have h0 : c0.videoId = I := hids c0 (by simp)
      have hne : c0.videoId ≠ "" := by rw [h0]; exact hI
      have hall : ∀ c ∈ rest, c.videoId = c0.videoId := by
        intro c hc
        rw [hids c (by simp [hc]), h0]
      have hrun := uploadLoop_all_match md now store c0.videoId hne rest
        (0 + (c0.data.length : Int)) ([] ++ c0.data) (0 + 1) hall
      have hflat : ([] ++ c0.data) ++ (rest.map fun c => c.data).flatten = B := by
        simpa using hdata
      set tbytes : Int :=
        0 + (c0.data.length : Int) +
          (rest.map fun c => (c.data.length : Int)).sum with htb
      set meta : VideoMetadata := commitMetadata md now c0.videoId tbytes
        with hmeta
      have hstore : mapInsert store c0.videoId
            { data := ([] ++ c0.data) ++ (rest.map fun c => c.data).flatten
              metadata := meta } =
          mapInsert store I { data := B, metadata := meta } := by
        rw [hflat, h0]
      have hlook : mapLookup (mapInsert store I
            { data := B, metadata := meta }) I =
          some { data := B, metadata := meta } :=
        mapLookup_mapInsert_self _ _ _
      have hBlen : ¬ (B.length = 0) := by
        cases B with
        | nil => exact absurd rfl hB
        | cons b bs => simp
      have hdl := downloadVideo_found _ I { data := B, metadata := meta }
        hlook hBlen
      refine ⟨{ videoId := c0.videoId, totalBytes := tbytes, metadata := meta },
        mapInsert store I { data := B, metadata := meta },
        sendChunks I meta B 0, ?_, ?_, ?_⟩
      · rw [uploadVideo_first_step md now store c0 rest hne .eof, hrun, hstore]
      · exact hdl
      · have := sendChunks_flatten I meta B 0
        rw [this]
        rfl

/-- C1 witness: a concrete two-chunk upload and its download. -/
theorem c1_roundtrip_amended_witness :
    ∃ resp store' out,
      uploadVideo [] 0 [] [⟨"v1", [1], 1⟩, ⟨"v1", [2, 3], 2⟩] .eof =
        (.ok resp, store') ∧
      downloadVideo store' "v1" = .ok out ∧
      (out.map fun c => c.data).flatten = [1, 2, 3] :=
  c1_roundtrip_amended [] 0 [] [1, 2, 3] "v1"
    [⟨"v1", [1], 1⟩, ⟨"v1", [2, 3], 2⟩] (by decide) (by decide)
    (by decide) (by decide)

theorem downloadVideo_absent (store : VideoStore) (id : String)
    (h : mapLookup store id = none) :
    downloadVideo store id = .error ⟨.notFound, "video not found"⟩ := by
  unfold downloadVideo
  rw [h]

theorem downloadVideo_empty (store : VideoStore) (id : String)
    (info : VideoInfo) (h : mapLookup store id = some info)
    (hz : info.data.length = 0) :
    downloadVideo store id =
      .error ⟨.failedPrecondition,
        "no download source available for this video"⟩ := by
  unfold downloadVideo
  rw [h]
  exact if_pos hz

/-- C4: a successful download re-chunks the stored payload into 1 MiB
slices, with sequence numbers 1, 2, ..., N in strictly ascending order;
the stored metadata rides only on the chunk with sequence 1, and every
later chunk carries only identifier, payload slice and sequence. -/
theorem c4_download_chunk_shape (store : VideoStore) (id : String)
    (out : List DownloadVideoResponse)
    (h : downloadVideo store id = .ok out) :
    ∃ info, mapLookup store id = some info ∧ info.data ≠ [] ∧
      ∀ (k : Nat) (hk : k < out.length),
        out.get ⟨k, hk⟩ =
          { videoId := id
            data := (info.data.drop (k * chunkSize)).take chunkSize
            sequence := ((k : Nat) : Int) + 1
            metadata := if k = 0 then some info.metadata else none } := by
  cases hlk : mapLookup store id with
  | none =>
      rw [downloadVideo_absent store id hlk] at h
      cases h
  | some info =>
      by_cases hz : info.data.length = 0
      · rw [downloadVideo_empty store id info hlk hz] at h
        cases h
      · have hok := downloadVideo_found store id info hlk hz
        rw [hok] at h
        injection h with h'
        refine ⟨info, rfl, ?_, ?_⟩
        · intro hnil
          apply hz
          rw [hnil]
          rfl
        · intro k hk
          have hz0 : (0 : Nat) * chunkSize = 0 := Nat.zero_mul chunkSize
          have hce : sendChunks id info.metadata info.data 0 =
              sendChunks id info.metadata info.data (0 * chunkSize) := by
            rw [hz0]
          have hce' : out = sendChunks id info.metadata info.data
              (0 * chunkSize) := by
            rw [← h', hce]
          rw [List.get_of_eq hce']
          have hk' : k < (sendChunks id info.metadata info.data
              (0 * chunkSize)).length := by
            rw [← hce']
            exact hk
          have hg := sendChunks_get id info.metadata info.data k 0 hk'
          rw [Nat.zero_add] at hg
          exact hg

/-- C4 witness: a one-chunk store probed concretely. -/
theorem c4_download_chunk_shape_witness :
    ∃ info, mapLookup
        ([("v1", ⟨[7], ⟨"u", "U", 0, "v1", 1⟩⟩)] : VideoStore) "v1" =
        some info ∧ info.data ≠ [] ∧
      ∀ (k : Nat)
        (hk : k < ([⟨"v1", [7], 1, some ⟨"u", "U", 0, "v1", 1⟩⟩] :
          List DownloadVideoResponse).length),
        ([⟨"v1", [7], 1, some ⟨"u", "U", 0, "v1", 1⟩⟩] :
          List DownloadVideoResponse).get ⟨k, hk⟩ =
          { videoId := "v1"
            data := (info.data.drop (k * chunkSize)).take chunkSize
            sequence := ((k : Nat) : Int) + 1
            metadata := if k = 0 then some info.metadata else none } :=
  c4_download_chunk_shape [("v1", ⟨[7], ⟨"u", "U", 0, "v1", 1⟩⟩)] "v1"
    [⟨"v1", [7], 1, some ⟨"u", "U", 0, "v1", 1⟩⟩] (by
      rw [downloadVideo_found [("v1", ⟨[7], ⟨"u", "U", 0, "v1", 1⟩⟩)] "v1"
        ⟨[7], ⟨"u", "U", 0, "v1", 1⟩⟩ rfl (by decide)]
      rw [sendChunks_eq_cons "v1" ⟨"u", "U", 0, "v1", 1⟩ [7] 0 (by decide)]
      rw [sendChunks_eq_nil "v1" ⟨"u", "U", 0, "v1", 1⟩ [7] (0 + chunkSize)
        (by decide)]
      rfl)

/-- C10: when an upload commits, the response's total byte count, the
stored metadata's file size and the stored payload's length agree (each
the sum of the received chunks' payload lengths), and the stored file
name is the object identifier itself. -/
theorem c10_commit_size_consistency (md : MD) (now : Int)
    (store : VideoStore) (chunks : List UploadVideoRequest)
    (fin : StreamEnd) (resp : UploadVideoResponse) (store' : VideoStore)
    (h : uploadVideo md now store chunks fin = (.ok resp, store')) :
    ∃ info, mapLookup store' resp.videoId = some info ∧
      resp.totalBytes = (chunks.map fun c => (c.data.length : Int)).sum ∧
      info.metadata.fileSize = resp.totalBytes ∧
      (info.data.length : Int) = resp.totalBytes ∧
      info.metadata.fileName = resp.videoId ∧
      resp.metadata = info.metadata := by
  have h1 : (uploadVideo md now store chunks fin).1 = .ok resp := by
    rw [h]
  obtain ⟨hvid, htb, hmeta, hstore⟩ :=
    uploadLoop_ok_inv md now store chunks fin "" 0 [] 0 resp h1
  have hstore' : store' = mapInsert store resp.videoId
      { data := [] ++ (chunks.map fun c => c.data).flatten
        metadata := resp.metadata } := by
    have h2 : (uploadVideo md now store chunks fin).2 = store' := by rw [h]
    rw [← h2]
    exact hstore
  refine ⟨{ data := [] ++ (chunks.map fun c => c.data).flatten
            metadata := resp.metadata }, ?_, ?_, ?_, ?_, ?_, rfl⟩
  · rw [hstore']
    exact mapLookup_mapInsert_self _ _ _
  · rw [htb, zero_add]
  · rw [hmeta]
    rfl
  · rw [htb, List.nil_append, List.length_flatten, List.map_map,
      Nat.cast_list_sum, List.map_map, zero_add]
    rfl
  · rw [hmeta]
    rfl

/-- C10 witness: a concrete committed two-byte upload. -/
theorem c10_commit_size_consistency_witness :
    ∃ info, mapLookup
        ([("v1", ⟨[7, 8], ⟨"unknown", "Unknown User", 0, "v1", 2⟩⟩)] :
          VideoStore) "v1" = some info ∧
      (2 : Int) = (([⟨"v1", [7, 8], 1⟩] : List UploadVideoRequest).map
        fun c => (c.data.length : Int)).sum ∧
      info.metadata.fileSize = 2 ∧ (info.data.length : Int) = 2 ∧
      info.metadata.fileName = "v1" ∧
      (⟨"unknown", "Unknown User", 0, "v1", 2⟩ : VideoMetadata) =
        info.metadata :=
  c10_commit_size_consistency [] 0 [] [⟨"v1", [7, 8], 1⟩] .eof
    ⟨"v1", 2, ⟨"unknown", "Unknown User", 0, "v1", 2⟩⟩
    [("v1", ⟨[7, 8], ⟨"unknown", "Unknown User", 0, "v1", 2⟩⟩)] (by rfl)

/-! ### Credential store claims -/

/-- C6 counterexample: signing up an already-taken username does not
fail with `AlreadyExists`; it succeeds and overwrites the stored
record. -/
theorem c6_signup_counterexample :
    (signUp (fun p => p) [("alice", ⟨"user_1", "alice", "pw"⟩)]
        "alice" "pw2").1 = .ok "user_2" ∧
    (signUp (fun p => p) [("alice", ⟨"user_1", "alice", "pw"⟩)]
        "alice" "pw2").2 =
      [("alice", ⟨"user_2", "alice", "pw2"⟩)] :=
  ⟨rfl, rfl⟩

/-- C6 (amended): SignUp fails with `InvalidArgument` when username or
password is empty; a taken username is not rejected — the signup
succeeds and replaces the stored record in place. -/
theorem c6_signup_amended (hash : String → String) (users : UserStore)
    (username password : String) :
    (username = "" ∨ password = "" →
      signUp hash users username password =
        (.error ⟨.invalidArgument, "username and password are required"⟩,
         users)) ∧
    (username ≠ "" → password ≠ "" →
      (signUp hash users username password).1 =
          .ok ("user_" ++ Nat.repr (users.length + 1)) ∧
      mapLookup (signUp hash users username password).2 username =
        some ⟨"user_" ++ Nat.repr (users.length + 1), username,
          hash password⟩) := by
  constructor
  · intro h
    unfold signUp
    rw [if_pos h]
  · intro hu hp
    have hcond : ¬ (username = "" ∨ password = "") := by
      rintro (h | h)
      · exact hu h
      · exact hp h
    constructor
    · unfold signUp
      rw [if_neg hcond]
    · unfold signUp
      rw [if_neg hcond]
      exact mapLookup_mapInsert_self _ _ _

/-- C6 witness: both branches at concrete inputs. -/
theorem c6_signup_amended_witness :
    (signUp (fun p => p) [] "" "pw" =
      (.error ⟨.invalidArgument, "username and password are required"⟩,
       [])) ∧
    ((signUp (fun p => p) [] "alice" "pw").1 = .ok ("user_" ++ Nat.repr 1) ∧
      mapLookup (signUp (fun p => p) [] "alice" "pw").2 "alice" =
        some ⟨"user_" ++ Nat.repr 1, "alice", "pw"⟩) :=
  ⟨(c6_signup_amended (fun p => p) [] "" "pw").1 (Or.inl rfl),
   (c6_signup_amended (fun p => p) [] "alice" "pw").2
     (by decide) (by decide)⟩

/-- C7: SignIn for an unknown username and SignIn for a known username
with a failing password check return the very same `Unauthenticated`
error value — no username-enumeration signal. -/
theorem c7_signin_indistinguishable (check : String → String → Bool)
    (sign : String → String → String) (users : UserStore)
    (u1 p1 u2 p2 : String) (usr : User)
    (h1 : mapLookup users u1 = none)
    (h2 : mapLookup users u2 = some usr)
    (hbad : check usr.password p2 = false) :
    signIn check sign users u1 p1 =
        .error ⟨.unauthenticated, "invalid credentials"⟩ ∧
    signIn check sign users u2 p2 = signIn check sign users u1 p1 := by
  have e1 : signIn check sign users u1 p1 =
      .error ⟨.unauthenticated, "invalid credentials"⟩ := by
    unfold signIn
    rw [h1]
  have e2 : signIn check sign users u2 p2 =
      .error ⟨.unauthenticated, "invalid credentials"⟩ := by
    unfold signIn
    rw [h2]
    simp [hbad]
  exact ⟨e1, e2.trans e1.symm⟩

/-- C7 witness: a store with one user, probed with an unknown name and
with a wrong password. -/
theorem c7_signin_indistinguishable_witness :
    signIn (fun h p => h = p) (fun uid _ => uid)
        [("bob", ⟨"user_1", "bob", "pw"⟩)] "alice" "x" =
      .error ⟨.unauthenticated, "invalid credentials"⟩ ∧
    signIn (fun h p => h = p) (fun uid _ => uid)
        [("bob", ⟨"user_1", "bob", "pw"⟩)] "bob" "wrong" =
      signIn (fun h p => h = p) (fun uid _ => uid)
        [("bob", ⟨"user_1", "bob", "pw"⟩)] "alice" "x" :=
  c7_signin_indistinguishable (fun h p => h = p) (fun uid _ => uid)
    [("bob", ⟨"user_1", "bob", "pw"⟩)] "alice" "x" "bob" "wrong"
    ⟨"user_1", "bob", "pw"⟩ (by decide) (by decide) (by decide)

/-! ### Interceptor claims -/

/-- C5: outside the SignUp/SignIn allow-list, a missing metadata
channel, a missing or empty authorization header, or an invalid token
makes each interceptor return `Unauthenticated` for every possible
handler (so the handler body never runs); SignUp and SignIn — and, for
the stream interceptor, any auth-service method — pass straight
through to the handler with no token check. -/
theorem c5_auth_gate :
    (∀ (α : Type) (validate : String → Bool) (fullMethod : String)
       (md : Option MD) (handler : Unit → Except GrpcError α),
       fullMethod ≠ "/auth.AuthService/SignUp" →
       fullMethod ≠ "/auth.AuthService/SignIn" →
       authFailed validate md = true →
       isUnauth (unaryInterceptor validate fullMethod md handler) = true) ∧
    (∀ (α : Type) (validate : String → Bool) (fullMethod : String)
       (md : Option MD) (handler : Unit → Except GrpcError α),
       (fullMethod = "/auth.AuthService/SignUp" ∨
        fullMethod = "/auth.AuthService/SignIn") →
       unaryInterceptor validate fullMethod md handler = handler ()) ∧
    (∀ (α : Type) (validate : String → Bool)
       (claimsUsername : String → Option String) (fullMethod : String)
       (ctx : Ctx) (handler : Ctx → α),
       hasPrefix "/auth.AuthService/" fullMethod = false →
       authFailed validate ctx.incoming = true →
       isUnauth (streamInterceptor validate claimsUsername fullMethod ctx
         handler) = true) ∧
    (∀ (α : Type) (validate : String → Bool)
       (claimsUsername : String → Option String) (fullMethod : String)
       (ctx : Ctx) (handler : Ctx → α),
       hasPrefix "/auth.AuthService/" fullMethod = true →
       streamInterceptor validate claimsUsername fullMethod ctx handler =
         .ok (handler ctx)) := by
  refine ⟨?_, ?_, ?_, ?_⟩
  · intro α validate m md handler h1 h2 hf
    have hcond : ¬ (m = "/auth.AuthService/SignUp" ∨
        m = "/auth.AuthService/SignIn") := by
      rintro (h | h)
      · exact h1 h
      · exact h2 h
    cases md with
    | none => simp [unaryInterceptor, hcond, isUnauth]
    | some mm =>
        cases hlk : mapLookup mm "authorization" with
        | none => simp [unaryInterceptor, hcond, hlk, isUnauth]
        | some vals =>
            cases vals with
            | nil => simp [unaryInterceptor, hcond, hlk, isUnauth]
            | cons a rest =>
                have hv : validate (trimBearer a) = false := by
                  simpa [authFailed, hlk] using hf
                simp [unaryInterceptor, hcond, hlk, hv, isUnauth]
  · intro α validate m md handler h
    unfold unaryInterceptor
    rw [if_pos h]
  · intro α validate claims m ctx handler hpre hf
    cases hin : ctx.incoming with
    | none => simp [streamInterceptor, hpre, hin, isUnauth]
    | some mm =>
        cases hlk : mapLookup mm "authorization" with
        | none => simp [streamInterceptor, hpre, hin, hlk, isUnauth]
        | some vals =>
            cases vals with
            | nil => simp [streamInterceptor, hpre, hin, hlk, isUnauth]
            | cons a rest =>
                have hv : validate (trimBearer a) = false := by
                  simpa [authFailed, hin, hlk] using hf
                simp [streamInterceptor, hpre, hin, hlk, hv, isUnauth]
  · intro α validate claims m ctx handler hpre
    unfold streamInterceptor
    rw [if_pos hpre]

/-- C5 witness: an authenticated-only method with no metadata at all is
rejected by the unary interceptor. -/
theorem c5_auth_gate_witness :
    isUnauth (unaryInterceptor (fun _ => true)
      "/auth.AuthService/GetUserProfile" none
      (fun _ => (.ok 0 : Except GrpcError Nat))) = true :=
  c5_auth_gate.1 Nat (fun _ => true) "/auth.AuthService/GetUserProfile"
    none (fun _ => .ok 0) (by decide) (by decide) (by decide)

/-- C8: the owner identity committed by an upload comes from the
caller-supplied incoming `user-id`/`user-name` headers (or the
sentinels), never from the verified token identity: the stream
interceptor appends the verified username only to the OUTGOING
metadata, which `metadata.FromIncomingContext` inside UploadVideo never
sees.  Concretely, with a valid token whose claims name `alice`, the
stored uploader is the attacker-controlled header value — and the
`unknown` sentinel when the header is absent — never `alice`. -/
theorem c8_owner_identity_ignores_token :
    (uploadVideoCall (fun _ => true) (fun _ => some "alice")
        ⟨some [("authorization", ["Bearer t"]), ("user-id", ["attacker"]),
               ("user-name", ["Attacker"])], []⟩ 0 [] [⟨"v1", [7], 1⟩]
        .eof =
      .ok (.ok ⟨"v1", 1, ⟨"attacker", "Attacker", 0, "v1", 1⟩⟩,
        [("v1", ⟨[7], ⟨"attacker", "Attacker", 0, "v1", 1⟩⟩)])) ∧
    (uploadVideoCall (fun _ => true) (fun _ => some "alice")
        ⟨some [("authorization", ["Bearer t"])], []⟩ 0 [] [⟨"v1", [7], 1⟩]
        .eof =
      .ok (.ok ⟨"v1", 1, ⟨"unknown", "Unknown User", 0, "v1", 1⟩⟩,
        [("v1", ⟨[7], ⟨"unknown", "Unknown User", 0, "v1", 1⟩⟩)])) :=
  ⟨rfl, rfl⟩

/-! ### User-id uniqueness (C9) -/

theorem digitVal_digitChar : ∀ d, d < 10 → digitVal (Nat.digitChar d) = d := by
  decide

theorem toDigitsCore_append10 :
    ∀ (fuel n : Nat) (ds : List Char),
      Nat.toDigitsCore 10 fuel n ds = Nat.toDigitsCore 10 fuel n [] ++ ds := by
  intro fuel
  induction fuel with
  | zero => intro n ds; simp [Nat.toDigitsCore]
  | succ f ih =>
      intro n ds
      simp only [Nat.toDigitsCore]
      by_cases h : n / 10 = 0
      · simp [h]
      · simp only [if_neg h]
        rw [ih (n / 10) [Nat.digitChar (n % 10)],
          ih (n / 10) (Nat.digitChar (n % 10) :: ds), List.append_assoc]
        rfl

theorem readDigits_toDigitsCore :
    ∀ (fuel n : Nat), n < fuel →
      readDigits (Nat.toDigitsCore 10 fuel n []) = n := by
  intro fuel
  induction fuel with
  | zero => intro n h; omega
  | succ f ih =>
      intro n h
      simp only [Nat.toDigitsCore]
      by_cases h10 : n / 10 = 0
      · have hlt : n % 10 < 10 := Nat.mod_lt n (by omega)
        have hsmall : n < 10 :=
          (Nat.div_eq_zero_iff (a := n) (b := 10) (by omega)).mp h10
        simp only [if_pos h10, readDigits, List.foldl]
        rw [Nat.zero_mul, Nat.zero_add, digitVal_digitChar _ hlt]
        omega
      · simp only [if_neg h10]
        rw [toDigitsCore_append10]
        have hn0 : 0 < n := by
          rcases Nat.eq_zero_or_pos n with hz | hp
          · subst hz; simp at h10
          · exact hp
        have hdiv : n / 10 < n := Nat.div_lt_self hn0 (by omega)
        have hrec := ih (n / 10) (by omega)
        unfold readDigits
        rw [List.foldl_append]
        unfold readDigits at hrec
        rw [hrec, List.foldl]
        rw [digitVal_digitChar _ (Nat.mod_lt n (by omega))]
        simp only [List.foldl]
        omega

theorem nat_repr_injective : ∀ a b : Nat, Nat.repr a = Nat.repr b → a = b := by
  intro a b h
  have hlist : Nat.toDigits 10 a = Nat.toDigits 10 b := by
    have := congrArg String.data h
    simpa [Nat.repr, List.asString] using this
  have ha := readDigits_toDigitsCore (a + 1) a (by omega)
  have hb := readDigits_toDigitsCore (b + 1) b (by omega)
  unfold Nat.toDigits at hlist
  rw [hlist, hb] at ha
  exact ha.symm

theorem userId_injective :
    Function.Injective (fun k : Nat => "user_" ++ Nat.repr (k + 1)) := by
  intro a b h
  simp only at h
  have hdata := congrArg String.data h
  rw [String.data_append, String.data_append] at hdata
  have := List.append_cancel_left hdata
  have hrepr : Nat.repr (a + 1) = Nat.repr (b + 1) := by
    apply congrArg List.asString at this
    simpa [List.asString] using this
  have := nat_repr_injective _ _ hrepr
  omega

theorem signUp_invalid_store (hash : String → String) (users : UserStore)
    (username password : String) (h : username = "" ∨ password = "") :
    (signUp hash users username password).2 = users := by
  unfold signUp
  rw [if_pos h]

theorem signUp_fresh_store (hash : String → String) (users : UserStore)
    (username password : String) (hu : username ≠ "") (hp : password ≠ "")
    (hfresh : ∀ e ∈ users, e.1 ≠ username) :
    (signUp hash users username password).2 =
      users ++ [(username, ⟨"user_" ++ Nat.repr (users.length + 1),
        username, hash password⟩)] := by
  unfold signUp
  have hcond : ¬ (username = "" ∨ password = "") := by
    rintro (h | h)
    · exact hu h
    · exact hp h
  rw [if_neg hcond]
  exact mapInsert_of_fresh users username _ hfresh

theorem runSignUps_ids (hash : String → String) :
    ∀ (reqs : List (String × String)) (users : UserStore),
      idsAssigned users →
      (reqs.map Prod.fst).Nodup →
      (∀ e ∈ users, e.1 ∉ reqs.map Prod.fst) →
      idsAssigned (runSignUps hash users reqs) ∧
      (∀ e ∈ runSignUps hash users reqs,
        e.1 ∈ users.map Prod.fst ∨ e.1 ∈ reqs.map Prod.fst) := by
  intro reqs
  induction reqs with
  | nil =>
      intro users hI _ _
      exact ⟨hI, fun e he => Or.inl (List.mem_map_of_mem _ he)⟩
  | cons r rest ih =>
      intro users hI hnd hdis
      obtain ⟨u, p⟩ := r
      have hndrest : (rest.map Prod.fst).Nodup := by
        rw [List.map_cons] at hnd
        exact (List.nodup_cons.mp hnd).2
      by_cases hv : u = "" ∨ p = ""
      · have hstep : (signUp hash users u p).2 = users :=
          signUp_invalid_store hash users u p hv
        simp only [runSignUps, hstep]
        have hdis' : ∀ e ∈ users, e.1 ∉ rest.map Prod.fst := by
          intro e he hmem
          exact hdis e he (by simp [hmem])
        have hmain := ih users hI hndrest hdis'
        refine ⟨hmain.1, ?_⟩
        intro e he
        rcases hmain.2 e he with h | h
        · exact Or.inl h
        · exact Or.inr (by simp [h])
      · push_neg at hv
        have hfresh : ∀ e ∈ users, e.1 ≠ u := by
          intro e he heq
          exact hdis e he (by simp [heq])
        have hstep := signUp_fresh_store hash users u p hv.1 hv.2 hfresh
        simp only [runSignUps, hstep]
        have hI' : idsAssigned (users ++
            [(u, ⟨"user_" ++ Nat.repr (users.length + 1), u, hash p⟩)]) := by
          unfold idsAssigned at hI ⊢
          rw [List.map_append, List.length_append, hI]
          simp [List.range_succ]
        have hu_not : u ∉ rest.map Prod.fst := by
          rw [List.map_cons] at hnd
          exact (List.nodup_cons.mp hnd).1
        have hdis' : ∀ e ∈ users ++
            [(u, ⟨"user_" ++ Nat.repr (users.length + 1), u, hash p⟩)],
            e.1 ∉ rest.map Prod.fst := by
          intro e he
          rcases List.mem_append.mp he with h | h
          · intro hmem
            exact hdis e h (by simp [hmem])
          · simp only [List.mem_singleton] at h
            rw [h]
            exact hu_not
        have hmain := ih _ hI' hndrest hdis'
        refine ⟨hmain.1, ?_⟩
        intro e he
        rcases hmain.2 e he with h | h
        · rw [List.map_append] at h
          rcases List.mem_append.mp h with h' | h'
          · exact Or.inl h'
          · simp only [List.map_cons, List.map_nil,
              List.mem_singleton] at h'
            exact Or.inr (by simp [h'])
        · exact Or.inr (by simp [h])

/-- C9 counterexample: the reachable store after
SignUp(a), SignUp(a), SignUp(b) holds two distinct users that share the
identifier `user_2`. -/
theorem c9_unique_ids_counterexample :
    ¬ (((runSignUps (fun p => p) []
        [("a", "p"), ("a", "p"), ("b", "p")]).map
        (fun e => e.2.id)).Nodup) := by
  decide

/-- C9 (amended): in every store reachable by SignUp calls with
pairwise-distinct usernames, distinct user records hold distinct
identifiers. -/
theorem c9_unique_ids_amended (hash : String → String)
    (reqs : List (String × String))
    (hnd : (reqs.map Prod.fst).Nodup) :
    ((runSignUps hash [] reqs).map (fun e => e.2.id)).Nodup := by
  have h := runSignUps_ids hash reqs []
    (by simp [idsAssigned]) hnd (by simp)
  have heq := h.1
  unfold idsAssigned at heq
  rw [heq]
  exact List.Nodup.map userId_injective (List.nodup_range _)

/-- C9 witness: two fresh signups yield distinct identifiers. -/
theorem c9_unique_ids_amended_witness :
    ((runSignUps (fun p => p) [] [("a", "p"), ("b", "q")]).map
      (fun e => e.2.id)).Nodup :=
  c9_unique_ids_amended (fun p => p) [("a", "p"), ("b", "q")] (by decide)
end Coscup
